import Mathlib

/-!
Shallow embedding of `transaction-sender/src/ops/delegate_user_decrypt.rs`
(the delegation processing pipeline of the fhevm transaction sender).

Conventions of the embedding:
* byte strings (`Vec<u8>`, `FixedBytes<32>`) are `List Nat`;
* `u64` values are `Nat`, with an explicit `% 2^64` where the source relies
  on machine arithmetic (the threshold subtraction);
* fallible calls are `Option`/`Except`: the Block-Oracle lookup
  `get_block_hash` is a function `Nat → Option (List Nat)` (`none` = the
  RPC call failed or the block was missing), the database is a plain list
  of rows and SQL statements are modelled by list operations;
* concurrency (the `JoinSet` fan-out of the submissions) is modelled by the
  list of task results in completion order, an arbitrary permutation of the
  per-candidate results.
-/

deriving instance DecidableEq for Except

namespace DelegateUserDecrypt

/-- Row of the `delegate_user_decrypt` table (struct `DelegationRow`). -/
structure DelegationRow where
  delegator : List Nat
  delegate : List Nat
  contract_address : List Nat
  delegation_counter : Nat
  old_expiry_date : Nat
  expiry_date : Nat
  host_chain_id : Nat
  block_hash : List Nat
  block_number : Nat
  transaction_id : Option (List Nat)
deriving DecidableEq, Repr

/-- enum `BlockStatus` (the source spells the first constructor `Unkown`). -/
inductive BlockStatus where
  | Unkown
  | Stable
  | Dismissed
deriving DecidableEq, Repr

/-- The classification of one block performed inside the loop of
`tx_check_ready_delegations` (lines 230-243 of the source): look the block
up by number on the host chain; equal hash means `Stable`, a different hash
means `Dismissed`, a failed lookup means `Unkown`. -/
def classify (oracle : Nat → Option (List Nat)) (block_number : Nat)
    (block_hash : List Nat) : BlockStatus :=
  match oracle block_number with
  | some live => if block_hash = live then .Stable else .Dismissed
  | none => .Unkown

/-- The memo map `blocks_status : HashMap<u64, BlockStatus>`, modelled as an
association list with most recent insertion first. -/
def lookup_status : List (Nat × BlockStatus) → Nat → Option BlockStatus
  | [], _ => none
  | (k, s) :: rest, bn => if bn = k then some s else lookup_status rest bn

/-- Accumulated outputs of the classification loop of
`tx_check_ready_delegations`: the `Stable` rows to submit, the block hashes
of handled (`Stable` or `Dismissed`) rows, the count of deferred rows, and
the number of Block-Oracle calls performed. -/
structure CheckOut where
  stable_delegations : List DelegationRow
  handled_block_delegation : List (List Nat)
  nb_unsure_delegations : Nat
  oracle_calls : Nat
deriving DecidableEq, Repr

/-- Contribution of one record once its block status is known: `Stable`
pushes the row and its hash, `Dismissed` pushes only the hash, `Unkown`
only counts. (`Vec::push` order is realized by consing each record's
contribution in front of the remainder's output.) -/
def record_step (d : DelegationRow) (status : BlockStatus) (out : CheckOut) : CheckOut :=
  match status with
  | .Stable =>
      { out with
        stable_delegations := d :: out.stable_delegations,
        handled_block_delegation := d.block_hash :: out.handled_block_delegation }
  | .Dismissed =>
      { out with
        handled_block_delegation := d.block_hash :: out.handled_block_delegation }
  | .Unkown =>
      { out with nb_unsure_delegations := out.nb_unsure_delegations + 1 }

/-- The `for delegation in delegations` loop of `tx_check_ready_delegations`
(lines 226-263): consult the memo first, otherwise call the Block Oracle
once and insert the result into the memo. -/
def checkLoop (oracle : Nat → Option (List Nat))
    (blocks_status : List (Nat × BlockStatus)) :
    List DelegationRow → CheckOut
  | [] => ⟨[], [], 0, 0⟩
  | d :: rest =>
    match lookup_status blocks_status d.block_number with
    | some status => record_step d status (checkLoop oracle blocks_status rest)
    | none =>
      let status := classify oracle d.block_number d.block_hash
      let out := checkLoop oracle ((d.block_number, status) :: blocks_status) rest
      record_step d status { out with oracle_calls := out.oracle_calls + 1 }

/-- Body of `tx_check_ready_delegations` after the fetch: returns
`(stable_delegations, handled_block_delegation)`; an empty fetch returns
immediately. -/
def check_delegations (oracle : Nat → Option (List Nat))
    (delegations : List DelegationRow) :
    List DelegationRow × List (List Nat) :=
  if delegations.isEmpty then ([], [])
  else
    let out := checkLoop oracle [] delegations
    (out.stable_delegations, out.handled_block_delegation)

/-! ### The store fetch: `delayed_sorted_delegation`

The SQL query
`SELECT ... WHERE block_number <= $1
 ORDER BY block_number ASC, delegation_counter ASC, transaction_id ASC`
is modelled on a table given as a list of rows: filter by the threshold,
then sort by the three-component key.  Postgres compares `bytea` values
byte by byte with a shorter prefix sorting first, and `ASC` places SQL
`NULL` last. -/

/-- Postgres `bytea` comparison (memcmp, shorter prefix first): `a ≤ b`. -/
def byteaLE : List Nat → List Nat → Bool
  | [], _ => true
  | _ :: _, [] => false
  | a :: as, b :: bs => a < b || (a = b && byteaLE as bs)

/-- `transaction_id ASC` comparison: non-NULL values by `byteaLE`,
NULL sorts last. -/
def txIdLE : Option (List Nat) → Option (List Nat) → Bool
  | some a, some b => byteaLE a b
  | some _, none => true
  | none, some _ => false
  | none, none => true

/-- The `ORDER BY` key of the fetch, as a total preorder on rows:
`(block_number, delegation_counter, transaction_id)` lexicographically. -/
def rowLE (a b : DelegationRow) : Bool :=
  a.block_number < b.block_number ||
    (a.block_number = b.block_number &&
      (a.delegation_counter < b.delegation_counter ||
        (a.delegation_counter = b.delegation_counter &&
          txIdLE a.transaction_id b.transaction_id)))

/-- The order as a `Prop` relation, for `List.insertionSort`. -/
def rowLEP (a b : DelegationRow) : Prop := rowLE a b = true

instance : DecidableRel rowLEP := fun a b => inferInstanceAs (Decidable (rowLE a b = true))

/-- `delayed_sorted_delegation` (lines 412-443): all rows of the table with
`block_number ≤ up_to_block_number`, in the `ORDER BY` order. -/
def delayed_sorted_delegation (table : List DelegationRow)
    (up_to_block_number : Nat) : List DelegationRow :=
  List.insertionSort rowLEP
    (table.filter (fun d => d.block_number ≤ up_to_block_number))

/-- `tx_check_ready_delegations` (lines 210-282): fetch the ready rows and
classify them. -/
def tx_check_ready_delegations (oracle : Nat → Option (List Nat))
    (table : List DelegationRow) (last_ready_block : Nat) :
    List DelegationRow × List (List Nat) :=
  check_delegations oracle (delayed_sorted_delegation table last_ready_block)

/-- `clean_delegation` (lines 445-458):
`DELETE FROM delegate_user_decrypt WHERE block_hash IN (...)`, with the
early return on an empty hash list. -/
def clean_delegation (table : List DelegationRow)
    (blocks_hash : List (List Nat)) : List DelegationRow :=
  if blocks_hash.isEmpty then table
  else table.filter (fun d => decide (d.block_hash ∉ blocks_hash))

/-! ### The submission engine: `send_transaction` -/

/-- The two benign contract errors of `MultichainACLErrors` the engine
recognises, plus a stand-in for every other decodable interface error. -/
inductive ACLContractError where
  | CoprocessorAlreadyDelegatedOrRevokedUserDecryption
  | UserDecryptionDelegationCounterTooLow
  | otherInterfaceError
deriving DecidableEq, Repr

/-- Model of `alloy::RpcError<TransportErrorKind>` as far as
`send_transaction` inspects it:
* `transport is_retry backend_gone` — `RpcError::Transport`, with the two
  flags tested by the second match guard;
* `localUsage` — `RpcError::LocalUsageError`;
* `errorResp decoded` — `RpcError::ErrorResp`, with the result of decoding
  the payload as a `MultichainACLErrors` interface error (`none`: the
  payload decodes to no interface error);
* `otherError` — every other variant (`as_error_resp()` yields nothing and
  neither guard matches). -/
inductive RpcErrorModel where
  | transport (is_retry : Bool) (backend_gone : Bool)
  | localUsage
  | errorResp (decoded : Option ACLContractError)
  | otherError
deriving DecidableEq, Repr

/-- `non_applicable_delegation` (lines 195-208): an error response whose
payload decodes to `CoprocessorAlreadyDelegatedOrRevokedUserDecryption` or
`UserDecryptionDelegationCounterTooLow`; anything else is `none`. -/
def non_applicable_delegation : RpcErrorModel → Option ACLContractError
  | .errorResp (some e) =>
    match e with
    | .CoprocessorAlreadyDelegatedOrRevokedUserDecryption => some e
    | .UserDecryptionDelegationCounterTooLow => some e
    | .otherInterfaceError => none
  | _ => none

/-- The second match guard of `send_transaction` (lines 124-126): transport
errors that are retryable or `BackendGone`, and local usage errors. -/
def unlimited_retry_error : RpcErrorModel → Bool
  | .transport is_retry backend_gone => is_retry || backend_gone
  | .localUsage => true
  | _ => false

/-- Outcome of `get_receipt()`: an error, or a mined receipt with its
boolean status. -/
inductive ReceiptOutcome where
  | receiptErr
  | mined (status : Bool)
deriving DecidableEq, Repr

/-- On-chain outcome of one submission: `send_transaction` on the provider
fails with an error, or succeeds and the receipt wait produces
`ReceiptOutcome`. -/
inductive SendOutcome where
  | sendErr (e : RpcErrorModel)
  | sent (receipt : ReceiptOutcome)
deriving DecidableEq, Repr

/-- Error value propagated by the engine (`anyhow` errors in the source). -/
inductive SendError where
  | rpc (e : RpcErrorModel)
  | receiptFailed
  | txnStatusFailed
deriving DecidableEq, Repr

/-- The two prometheus counters touched by the engine. -/
structure Metrics where
  success : Nat
  fail : Nat
deriving DecidableEq, Repr

/-- `send_transaction` (lines 94-193) as a function of the on-chain outcome,
threading the metric counters:
* send error decoding as `non_applicable_delegation` → logged, `Ok(())`;
* send error matching the unlimited-retry guard → fail counter, `bail!`;
* any other send error → fail counter, `bail!` (the source's two arms
  differ only in the log message);
* receipt error → fail counter, error;
* mined with failure status → fail counter, error;
* mined with success status → success counter, `Ok(())`. -/
def send_transaction (outcome : SendOutcome) (m : Metrics) :
    Except SendError Unit × Metrics :=
  match outcome with
  | .sendErr e =>
    if (non_applicable_delegation e).isSome then (Except.ok (), m)
    else if unlimited_retry_error e then
      (Except.error (.rpc e), { m with fail := m.fail + 1 })
    else
      (Except.error (.rpc e), { m with fail := m.fail + 1 })
  | .sent .receiptErr =>
      (Except.error .receiptFailed, { m with fail := m.fail + 1 })
  | .sent (.mined true) =>
      (Except.ok (), { m with success := m.success + 1 })
  | .sent (.mined false) =>
      (Except.error .txnStatusFailed, { m with fail := m.fail + 1 })

/-- Result of one spawned submission task, as `join_next` reports it
(`Ok(Ok(()))` is success). -/
def task_result (outcome : SendOutcome) : Except SendError Unit :=
  (send_transaction outcome ⟨0, 0⟩).1

/-! ### The readiness notifier: `wait_last_block_number` -/

/-- Decimal digit accumulation of `str::parse::<u64>` over the payload
characters. -/
def digits_value : List Char → Nat → Option Nat
  | [], acc => some acc
  | c :: cs, acc =>
    if c.isDigit then digits_value cs (acc * 10 + (c.toNat - 48))
    else none

/-- `str::parse::<u64>()` on the notification payload: an optional leading
`+`, then at least one decimal digit, value below `2^64`. -/
def parse_u64 (payload : List Char) : Option Nat :=
  let digits := match payload with
    | '+' :: rest => rest
    | rest => rest
  if digits.isEmpty then none
  else
    match digits_value digits 0 with
    | some v => if v < 18446744073709551616 then some v else none
    | none => none

/-- What the `LISTEN new_host_block` wait observes:
* `connectError` — `PgListener::connect_with` or `listen` failed (the `?`
  operator propagates these);
* `timeout` — no message within `delegation_fallback_polling` seconds;
* `recvError` — `listener.recv()` returned an error;
* `message payload` — a notification with the given payload arrived in
  time. -/
inductive NotifyOutcome where
  | connectError
  | timeout
  | recvError
  | message (payload : List Char)

/-- `wait_last_block_number` (lines 297-322).  `host_height` is the result
of the direct `get_block_number()` query against the host chain (`none` =
that query failed); the returned `Option` is the `Result` of the function.
A timeout, a receive error or an unparsable payload fall back to the direct
query; establishment errors propagate; a parsable payload wins. -/
def wait_last_block_number (outcome : NotifyOutcome)
    (host_height : Option Nat) : Option Nat :=
  match outcome with
  | .connectError => none
  | .timeout => host_height
  | .recvError => host_height
  | .message payload =>
    match parse_u64 payload with
    | some block_number => some block_number
    | none => host_height

/-! ### The batch orchestrator: `execute` -/

/-- The unguarded `u64` subtraction
`block_number - self.conf.block_delay_for_delegation` (line 341), with
wrap-around semantics. -/
def wrapSub64 (a b : Nat) : Nat :=
  (a % 18446744073709551616 +
    (18446744073709551616 - b % 18446744073709551616)) % 18446744073709551616

/-- The `while let Some(res) = join_set.join_next()` loop (lines 396-401):
given the task results in completion order, returns how many results the
loop consumed and whether it fell through (true) or bailed out on a result
that was not `Ok(Ok(()))` (false).  Tasks beyond the consumed prefix are
never joined: the bail drops the `JoinSet`, which aborts them. -/
def join_loop : List (Except SendError Unit) → Nat × Bool
  | [] => (0, true)
  | r :: rest =>
    match r with
    | .ok () =>
      let out := join_loop rest
      (out.1 + 1, out.2)
    | .error _ => (1, false)

/-- Errors `execute` can propagate in the modelled paths. -/
inductive PassError where
  | heightQueryFailed
  | sendFailed
deriving DecidableEq, Repr

/-- `execute` (lines 335-409) as a function from the pass's environment to
its `Result` and the durable store contents after the pass:
* `table` — the `delegate_user_decrypt` table at the start of the pass;
* `oracle` — the host-chain block-hash lookup;
* `notify`/`host_height` — inputs of `wait_last_block_number`;
* `block_delay_for_delegation` — the configured finality delay;
* `completions` — the spawned submission tasks' results in completion
  order (theorems tie it to the stable candidates by a permutation);
* `cleanup_ok` — whether the `DELETE` of `clean_delegation` succeeds.
The store transaction spans the pass: the table is only changed by a
commit that follows a successful cleanup; a rollback (or a failed cleanup,
whose error is only logged) leaves it untouched. -/
def execute (table : List DelegationRow) (oracle : Nat → Option (List Nat))
    (notify : NotifyOutcome) (host_height : Option Nat)
    (block_delay_for_delegation : Nat)
    (completions : List (Except SendError Unit)) (cleanup_ok : Bool) :
    Except PassError Bool × List DelegationRow :=
  match wait_last_block_number notify host_height with
  | none => (Except.error PassError.heightQueryFailed, table)
  | some block_number =>
    let up_to_block_number := wrapSub64 block_number block_delay_for_delegation
    let fetched := tx_check_ready_delegations oracle table up_to_block_number
    let ready_delegations := fetched.1
    let handled_block_delegation := fetched.2
    if ready_delegations.isEmpty && handled_block_delegation.isEmpty then
      (Except.ok true, table)
    else if (join_loop completions).2 then
      if cleanup_ok then
        (Except.ok true, clean_delegation table handled_block_delegation)
      else
        (Except.ok true, table)
    else
      (Except.error PassError.sendFailed, table)

/-! ### Helper lemmas about the join loop -/

/-- The join loop falls through exactly when every task result is
`Ok(Ok(()))`. -/
theorem join_loop_ok_iff (cs : List (Except SendError Unit)) :
    (join_loop cs).2 = true ↔ ∀ r ∈ cs, r = Except.ok () := by
  induction cs with
  | nil => simp [join_loop]
  | cons r rest ih =>
    cases r with
    | ok u =>
      cases u
      simp [join_loop, ih]
    | error e => simp [join_loop]

/-- When every result is a success the loop consumes all of them. -/
theorem join_loop_count_of_ok (cs : List (Except SendError Unit))
    (h : ∀ r ∈ cs, r = Except.ok ()) : (join_loop cs).1 = cs.length := by
  induction cs with
  | nil => rfl
  | cons r rest ih =>
    have hr := h r (List.mem_cons_self r rest)
    subst hr
    simp only [join_loop, List.length_cons]
    rw [ih (fun r hr => h r (List.mem_cons_of_mem _ hr))]

/-- The loop stops at the first failing result: with a prefix of `n`
successes followed by a failure, exactly `n + 1` results are consumed,
whatever comes after. -/
theorem join_loop_stops_at_first_error (pre : List (Except SendError Unit))
    (e : Except SendError Unit) (post : List (Except SendError Unit))
    (hpre : ∀ r ∈ pre, r = Except.ok ()) (he : e ≠ Except.ok ()) :
    (join_loop (pre ++ e :: post)).1 = pre.length + 1 := by
  induction pre with
  | nil =>
    cases e with
    | ok u => cases u; exact absurd rfl he
    | error err => simp [join_loop]
  | cons r rest ih =>
    have hr := hpre r (List.mem_cons_self r rest)
    subst hr
    simp only [join_loop, List.cons_append, List.length_cons, List.append_eq]
    rw [ih (fun r hr => hpre r (List.mem_cons_of_mem _ hr))]

/-! ### Characterization of the classification loop

The loop memoizes classifications by `block_number`.  The invariant view:
the status a record receives is the memoized entry if one exists, and
otherwise the classification of the *first* record of the list sharing its
`block_number`. -/

/-- First record of the list anchored at `bn`. -/
def first_at : List DelegationRow → Nat → Option DelegationRow
  | [], _ => none
  | d :: rest, bn => if d.block_number = bn then some d else first_at rest bn

/-- The status the loop assigns to any record anchored at `bn`, given memo
`m` and the remaining records `dels`. -/
def statusIn (oracle : Nat → Option (List Nat)) (m : List (Nat × BlockStatus))
    (dels : List DelegationRow) (bn : Nat) : Option BlockStatus :=
  match lookup_status m bn with
  | some s => some s
  | none => (first_at dels bn).map (fun e => classify oracle e.block_number e.block_hash)

theorem first_at_eq_some {dels : List DelegationRow} {bn : Nat} {e : DelegationRow}
    (h : first_at dels bn = some e) : e ∈ dels ∧ e.block_number = bn := by
  induction dels with
  | nil => simp [first_at] at h
  | cons d rest ih =>
    by_cases hd : d.block_number = bn
    · simp [first_at, hd] at h
      subst h
      exact ⟨List.mem_cons_self _ _, hd⟩
    · simp [first_at, hd] at h
      obtain ⟨he, hbn⟩ := ih h
      exact ⟨List.mem_cons_of_mem _ he, hbn⟩

theorem first_at_isSome_of_mem {dels : List DelegationRow} {d : DelegationRow}
    (h : d ∈ dels) : ∃ e, first_at dels d.block_number = some e := by
  induction dels with
  | nil => simp at h
  | cons c rest ih =>
    by_cases hc : c.block_number = d.block_number
    · exact ⟨c, by simp [first_at, hc]⟩
    · rcases List.mem_cons.mp h with rfl | hmem
      · exact absurd rfl hc
      · obtain ⟨e, he⟩ := ih hmem
        exact ⟨e, by simp [first_at, hc, he]⟩

/-- When the memo already holds the head's block, consing the head changes
nothing in the assigned statuses. -/
theorem statusIn_cons_of_lookup {oracle : Nat → Option (List Nat)}
    {m : List (Nat × BlockStatus)} {d : DelegationRow} {s : BlockStatus}
    (rest : List DelegationRow)
    (h : lookup_status m d.block_number = some s) (bn : Nat) :
    statusIn oracle m (d :: rest) bn = statusIn oracle m rest bn := by
  unfold statusIn
  cases hbn : lookup_status m bn with
  | some t => rfl
  | none =>
    have hne : d.block_number ≠ bn := by
      intro heq
      rw [heq] at h
      rw [h] at hbn
      exact Option.noConfusion hbn
    simp [first_at, hne]

/-- When the memo misses the head's block, consing the head is the same as
extending the memo with the head's classification. -/
theorem statusIn_cons_of_miss {oracle : Nat → Option (List Nat)}
    {m : List (Nat × BlockStatus)} {d : DelegationRow}
    (rest : List DelegationRow)
    (h : lookup_status m d.block_number = none) (bn : Nat) :
    statusIn oracle m (d :: rest) bn =
      statusIn oracle
        ((d.block_number, classify oracle d.block_number d.block_hash) :: m)
        rest bn := by
  unfold statusIn
  by_cases hd : bn = d.block_number
  · subst hd
    rw [h]
    simp [lookup_status, first_at]
  · have hd2 : d.block_number ≠ bn := fun heq => hd heq.symm
    simp only [lookup_status, if_neg hd]
    cases hbn : lookup_status m bn with
    | some t => rfl
    | none => simp [first_at, hd2]

/-- The head's own status in the miss case is its classification. -/
theorem statusIn_head_of_miss (oracle : Nat → Option (List Nat))
    {m : List (Nat × BlockStatus)} {d : DelegationRow}
    (rest : List DelegationRow)
    (h : lookup_status m d.block_number = none) :
    statusIn oracle m (d :: rest) d.block_number =
      some (classify oracle d.block_number d.block_hash) := by
  unfold statusIn
  rw [h]
  simp [first_at]

/-- The stable output of the loop is the sublist of records whose assigned
status is `Stable`. -/
theorem checkLoop_stable (oracle : Nat → Option (List Nat)) :
    ∀ (dels : List DelegationRow) (m : List (Nat × BlockStatus)),
    (checkLoop oracle m dels).stable_delegations
      = dels.filter
          (fun d => decide (statusIn oracle m dels d.block_number = some BlockStatus.Stable)) := by
  intro dels
  induction dels with
  | nil => intro m; rfl
  | cons d rest ih =>
    intro m
    rw [List.filter_cons]
    cases hm : lookup_status m d.block_number with
    | some s =>
      have hcong : ∀ x ∈ rest,
          decide (statusIn oracle m (d :: rest) x.block_number = some BlockStatus.Stable)
            = decide (statusIn oracle m rest x.block_number = some BlockStatus.Stable) := by
        intro x _
        rw [statusIn_cons_of_lookup rest hm]
      have hd : statusIn oracle m (d :: rest) d.block_number = some s := by
        unfold statusIn
        rw [hm]
      simp only [checkLoop, hm]
      rw [hd, List.filter_congr hcong, ← ih m]
      cases s <;> simp [record_step]
    | none =>
      have hcong : ∀ x ∈ rest,
          decide (statusIn oracle m (d :: rest) x.block_number = some BlockStatus.Stable)
            = decide (statusIn oracle
                ((d.block_number, classify oracle d.block_number d.block_hash) :: m)
                rest x.block_number = some BlockStatus.Stable) := by
        intro x _
        rw [statusIn_cons_of_miss rest hm]
      have hd := statusIn_head_of_miss oracle rest hm
      simp only [checkLoop, hm]
      rw [hd, List.filter_congr hcong,
        ← ih ((d.block_number, classify oracle d.block_number d.block_hash) :: m)]
      cases classify oracle d.block_number d.block_hash <;> simp [record_step]

/-- The handled-hash output of the loop: the hashes of the records whose
assigned status is `Stable` or `Dismissed`, in order. -/
theorem checkLoop_handled (oracle : Nat → Option (List Nat)) :
    ∀ (dels : List DelegationRow) (m : List (Nat × BlockStatus)),
    (checkLoop oracle m dels).handled_block_delegation
      = (dels.filter
          (fun d => decide (statusIn oracle m dels d.block_number = some BlockStatus.Stable ∨
              statusIn oracle m dels d.block_number = some BlockStatus.Dismissed))).map
          (fun d => d.block_hash) := by
  intro dels
  induction dels with
  | nil => intro m; rfl
  | cons d rest ih =>
    intro m
    rw [List.filter_cons]
    cases hm : lookup_status m d.block_number with
    | some s =>
      have hcong : ∀ x ∈ rest,
          decide (statusIn oracle m (d :: rest) x.block_number = some BlockStatus.Stable ∨
              statusIn oracle m (d :: rest) x.block_number = some BlockStatus.Dismissed)
            = decide (statusIn oracle m rest x.block_number = some BlockStatus.Stable ∨
                statusIn oracle m rest x.block_number = some BlockStatus.Dismissed) := by
        intro x _
        rw [statusIn_cons_of_lookup rest hm]
      have hd : statusIn oracle m (d :: rest) d.block_number = some s := by
        unfold statusIn
        rw [hm]
      simp only [checkLoop, hm]
      rw [hd, List.filter_congr hcong]
      have ih2 := ih m
      simp only [Bool.decide_or] at ih2
      cases s <;> simp [record_step, ← ih2]
    | none =>
      have hcong : ∀ x ∈ rest,
          decide (statusIn oracle m (d :: rest) x.block_number = some BlockStatus.Stable ∨
              statusIn oracle m (d :: rest) x.block_number = some BlockStatus.Dismissed)
            = decide (statusIn oracle
                ((d.block_number, classify oracle d.block_number d.block_hash) :: m)
                rest x.block_number = some BlockStatus.Stable ∨
                statusIn oracle
                ((d.block_number, classify oracle d.block_number d.block_hash) :: m)
                rest x.block_number = some BlockStatus.Dismissed) := by
        intro x _
        rw [statusIn_cons_of_miss rest hm]
      have hd := statusIn_head_of_miss oracle rest hm
      simp only [checkLoop, hm]
      rw [hd, List.filter_congr hcong]
      have ih2 := ih ((d.block_number, classify oracle d.block_number d.block_hash) :: m)
      simp only [Bool.decide_or] at ih2
      generalize hst : classify oracle d.block_number d.block_hash = st at ih2 ⊢
      cases st <;> simp [record_step, ← ih2]

/-- Counting distinct keys: consing `a` adds one to the deduplicated length
of the list with `a` filtered away. -/
theorem dedup_length_cons (a : Nat) (L : List Nat) :
    ((a :: L).dedup).length = ((L.filter (fun b => decide (b ≠ a))).dedup).length + 1 := by
  rw [← List.card_toFinset, ← List.card_toFinset, List.toFinset_cons]
  have h1 : (L.filter (fun b => decide (b ≠ a))).toFinset = L.toFinset.erase a := by
    ext x
    simp only [List.mem_toFinset, List.mem_filter, Finset.mem_erase, decide_eq_true_iff]
    tauto
  rw [h1]
  have h2 : insert a L.toFinset = insert a (L.toFinset.erase a) := by
    ext x
    by_cases hx : x = a <;> simp [hx]
  rw [h2, Finset.card_insert_of_not_mem (Finset.not_mem_erase a _)]

/-- The Block Oracle is called exactly once for each distinct block number
not already memoized. -/
theorem checkLoop_calls (oracle : Nat → Option (List Nat)) :
    ∀ (dels : List DelegationRow) (m : List (Nat × BlockStatus)),
    (checkLoop oracle m dels).oracle_calls
      = ((dels.map (fun d => d.block_number)).filter
          (fun b => decide (lookup_status m b = none))).dedup.length := by
  intro dels
  induction dels with
  | nil => intro m; rfl
  | cons d rest ih =>
    intro m
    rw [List.map_cons, List.filter_cons]
    cases hm : lookup_status m d.block_number with
    | some s =>
      rw [if_neg (by simp [hm])]
      rw [← ih m]
      simp only [checkLoop, hm]
      cases s <;> simp [record_step]
    | none =>
      rw [if_pos (by simp [hm])]
      rw [dedup_length_cons, List.filter_filter]
      have hcong : ∀ b ∈ rest.map (fun d => d.block_number),
          (decide (b ≠ d.block_number) && decide (lookup_status m b = none))
            = decide (lookup_status
                ((d.block_number, classify oracle d.block_number d.block_hash) :: m) b
                  = none) := by
        intro b _
        by_cases hb : b = d.block_number
        · subst hb
          simp [lookup_status]
        · simp [lookup_status, hb]
      rw [List.filter_congr hcong,
        ← ih ((d.block_number, classify oracle d.block_number d.block_hash) :: m)]
      simp only [checkLoop, hm]
      cases classify oracle d.block_number d.block_hash <;> simp [record_step]

/-- `check_delegations` agrees with the loop run from the empty memo. -/
theorem check_delegations_eq (oracle : Nat → Option (List Nat))
    (dels : List DelegationRow) :
    check_delegations oracle dels
      = ((checkLoop oracle [] dels).stable_delegations,
        (checkLoop oracle [] dels).handled_block_delegation) := by
  cases dels with
  | nil => rfl
  | cons d rest => rfl

/-- With an empty memo, when all records that share a height also share a
recorded hash, every record's assigned status is its own classification. -/
theorem statusIn_nil_of_uniform (oracle : Nat → Option (List Nat))
    {dels : List DelegationRow} {d : DelegationRow}
    (H1 : ∀ d1 ∈ dels, ∀ d2 ∈ dels,
      d1.block_number = d2.block_number → d1.block_hash = d2.block_hash)
    (hd : d ∈ dels) :
    statusIn oracle [] dels d.block_number
      = some (classify oracle d.block_number d.block_hash) := by
  obtain ⟨e, he⟩ := first_at_isSome_of_mem hd
  obtain ⟨hmem, hbn⟩ := first_at_eq_some he
  have hcl : classify oracle e.block_number e.block_hash
      = classify oracle d.block_number d.block_hash := by
    rw [hbn, H1 e hmem d hd hbn]
  unfold statusIn
  simp only [lookup_status, he]
  simp [hcl]

/-! ### The fetch order is total and transitive -/

theorem byteaLE_total : ∀ a b : List Nat, byteaLE a b = true ∨ byteaLE b a = true := by
  intro a
  induction a with
  | nil => intro b; left; rfl
  | cons x xs ih =>
    intro b
    cases b with
    | nil => right; rfl
    | cons y ys =>
      by_cases hxy : x = y
      · subst hxy
        rcases ih ys with h | h
        · left; simp [byteaLE, h]
        · right; simp [byteaLE, h]
      · rcases Nat.lt_or_ge x y with h | h
        · left; simp [byteaLE, h]
        · have hyx : y < x := lt_of_le_of_ne h (fun heq => hxy heq.symm)
          right; simp [byteaLE, hyx]

theorem byteaLE_trans : ∀ a b c : List Nat,
    byteaLE a b = true → byteaLE b c = true → byteaLE a c = true := by
  intro a
  induction a with
  | nil => intro b c _ _; rfl
  | cons x xs ih =>
    intro b c hab hbc
    cases b with
    | nil => simp [byteaLE] at hab
    | cons y ys =>
      cases c with
      | nil => simp [byteaLE] at hbc
      | cons z zs =>
        simp only [byteaLE, Bool.or_eq_true, Bool.and_eq_true,
          decide_eq_true_iff] at hab hbc ⊢
        rcases hab with h1 | ⟨hxy, hab2⟩
        · rcases hbc with h2 | ⟨hyz, _⟩
          · left; omega
          · left; omega
        · rcases hbc with h2 | ⟨hyz, hbc2⟩
          · left; omega
          · right; exact ⟨by omega, ih ys zs hab2 hbc2⟩

theorem txIdLE_total : ∀ a b : Option (List Nat),
    txIdLE a b = true ∨ txIdLE b a = true := by
  intro a b
  cases a with
  | none => cases b with
    | none => left; rfl
    | some v => right; rfl
  | some u => cases b with
    | none => left; rfl
    | some v => exact byteaLE_total u v

theorem txIdLE_trans : ∀ a b c : Option (List Nat),
    txIdLE a b = true → txIdLE b c = true → txIdLE a c = true := by
  intro a b c hab hbc
  cases a with
  | none =>
    cases b with
    | none => exact hbc
    | some v => simp [txIdLE] at hab
  | some u =>
    cases c with
    | none => rfl
    | some w =>
      cases b with
      | none => simp [txIdLE] at hbc
      | some v => exact byteaLE_trans u v w hab hbc

theorem rowLE_total : ∀ a b : DelegationRow, rowLE a b = true ∨ rowLE b a = true := by
  intro a b
  simp only [rowLE, Bool.or_eq_true, Bool.and_eq_true, decide_eq_true_iff]
  by_cases hbn : a.block_number = b.block_number
  · by_cases hc : a.delegation_counter = b.delegation_counter
    · rcases txIdLE_total a.transaction_id b.transaction_id with ht | ht
      · exact Or.inl (Or.inr ⟨hbn, Or.inr ⟨hc, ht⟩⟩)
      · exact Or.inr (Or.inr ⟨hbn.symm, Or.inr ⟨hc.symm, ht⟩⟩)
    · rcases Nat.lt_or_ge a.delegation_counter b.delegation_counter with h | h
      · exact Or.inl (Or.inr ⟨hbn, Or.inl h⟩)
      · exact Or.inr (Or.inr ⟨hbn.symm, Or.inl (by omega)⟩)
  · rcases Nat.lt_or_ge a.block_number b.block_number with h | h
    · exact Or.inl (Or.inl h)
    · exact Or.inr (Or.inl (by omega))

theorem rowLE_trans : ∀ a b c : DelegationRow,
    rowLE a b = true → rowLE b c = true → rowLE a c = true := by
  intro a b c hab hbc
  simp only [rowLE, Bool.or_eq_true, Bool.and_eq_true, decide_eq_true_iff] at hab hbc ⊢
  rcases hab with h1 | ⟨hbn1, hin1⟩
  · rcases hbc with h2 | ⟨hbn2, _⟩
    · left; omega
    · left; omega
  · rcases hbc with h2 | ⟨hbn2, hin2⟩
    · left; omega
    · right
      refine ⟨hbn1.trans hbn2, ?_⟩
      rcases hin1 with hc1 | ⟨hcnt1, ht1⟩
      · rcases hin2 with hc2 | ⟨hcnt2, _⟩
        · left; omega
        · left; omega
      · rcases hin2 with hc2 | ⟨hcnt2, ht2⟩
        · left; omega
        · exact Or.inr ⟨hcnt1.trans hcnt2, txIdLE_trans _ _ _ ht1 ht2⟩

instance : IsTotal DelegationRow rowLEP := ⟨rowLE_total⟩

instance : IsTrans DelegationRow rowLEP := ⟨rowLE_trans⟩

/-! ### Sample rows and environments used by witnesses and counterexamples -/

/-- Row at block 100, counter 1. -/
def row100c1 : DelegationRow := ⟨[], [], [], 1, 0, 0, 0, [1], 100, none⟩

/-- Row at block 100, counter 2. -/
def row100c2 : DelegationRow := ⟨[], [], [], 2, 0, 0, 0, [2], 100, none⟩

/-- Row at block 101, counter 1. -/
def row101c1 : DelegationRow := ⟨[], [], [], 3, 0, 0, 0, [3], 101, none⟩

/-- A row at height 5 recorded before a reorg: its hash `[1]` is no longer
the live hash. -/
def rowReorged : DelegationRow := ⟨[], [], [], 1, 0, 0, 0, [1], 5, none⟩

/-- A row at height 5 recorded after the reorg: its hash `[2]` is the live
hash. -/
def rowCanonical : DelegationRow := ⟨[], [], [], 2, 0, 0, 0, [2], 5, none⟩

/-- Host chain whose live hash at height 5 is `[2]`. -/
def cexOracle : Nat → Option (List Nat) := fun bn => if bn = 5 then some [2] else none

/-- One-row table for the pass-level witnesses: a row at height 5 with
hash `[7]`. -/
def witRow : DelegationRow := ⟨[], [], [], 1, 0, 0, 0, [7], 5, none⟩

def wit_table : List DelegationRow := [witRow]

/-- Host chain on which `witRow` is stable. -/
def wit_oracle : Nat → Option (List Nat) := fun _ => some [7]

/-- Completion order in which the failing of two dispatched tasks
completes first. -/
def first_failure_first : List (Except SendError Unit) :=
  [Except.error SendError.receiptFailed, Except.ok ()]

/-! ### Claim theorems -/

/-- C7: whenever the height wait (a) times out, (b) errors while receiving
on the notification subscription, or (c) receives a payload that does not
parse as an integer, the returned height is the result of the direct
current-height query against the host chain; only a well-formed
notification received in time yields the notified height instead. -/
theorem wait_last_block_number_fallback (q : Option Nat) (payload : List Char) :
    wait_last_block_number NotifyOutcome.timeout q = q
    ∧ wait_last_block_number NotifyOutcome.recvError q = q
    ∧ (parse_u64 payload = none →
        wait_last_block_number (NotifyOutcome.message payload) q = q)
    ∧ (∀ n, parse_u64 payload = some n →
        wait_last_block_number (NotifyOutcome.message payload) q = some n) := by
  refine ⟨rfl, rfl, ?_, ?_⟩
  · intro hp
    simp [wait_last_block_number, hp]
  · intro n hp
    simp [wait_last_block_number, hp]

theorem wait_last_block_number_fallback_witness :
    wait_last_block_number NotifyOutcome.timeout (some 7) = some 7
    ∧ wait_last_block_number (NotifyOutcome.message ['x']) (some 7) = some 7
    ∧ wait_last_block_number (NotifyOutcome.message ['2', '0', '5']) (some 7) = some 205 :=
  ⟨(wait_last_block_number_fallback (some 7) ['x']).1,
    (wait_last_block_number_fallback (some 7) ['x']).2.2.1 (by decide),
    (wait_last_block_number_fallback (some 7) ['2', '0', '5']).2.2.2 205 (by decide)⟩

/-- C9: the fetch threshold of a pass is the height obtained from the
notifier (or its fallback query) minus the configured finality delay; in
particular a direct query returning 205 with delay 5 gives threshold 200. -/
theorem pass_threshold_height_minus_delay :
    (∀ (notify : NotifyOutcome) (host_height : Option Nat) (h delay : Nat),
      wait_last_block_number notify host_height = some h →
      delay ≤ h → h < 18446744073709551616 →
      wrapSub64 h delay = h - delay)
    ∧ wait_last_block_number NotifyOutcome.timeout (some 205) = some 205
    ∧ wrapSub64 205 5 = 200 := by
  refine ⟨?_, rfl, by decide⟩
  intro _ _ h delay _ hle hlt
  unfold wrapSub64
  omega

theorem pass_threshold_height_minus_delay_witness :
    wrapSub64 205 5 = 205 - 5 :=
  pass_threshold_height_minus_delay.1 NotifyOutcome.timeout (some 205) 205 5 rfl
    (by decide) (by decide)

/-- C10: the threshold computation is an unguarded `u64` subtraction: for
`delay ≤ height` it is the exact difference, and for `height < delay` it
wraps around (no saturation at zero), so the pass is well-defined only
under the precondition `delay ≤ height`. -/
theorem threshold_subtraction_unguarded :
    (∀ h delay : Nat, delay ≤ h → h < 18446744073709551616 →
      wrapSub64 h delay = h - delay)
    ∧ (∀ h delay : Nat, h < delay → delay < 18446744073709551616 →
      wrapSub64 h delay = 18446744073709551616 + h - delay
      ∧ 0 < wrapSub64 h delay ∧ h < wrapSub64 h delay) := by
  constructor
  · intro h delay hle hlt
    unfold wrapSub64
    omega
  · intro h delay hlt hdlt
    unfold wrapSub64
    omega

theorem threshold_subtraction_unguarded_witness :
    wrapSub64 3 5 = 18446744073709551616 + 3 - 5
    ∧ 0 < wrapSub64 3 5 ∧ 3 < wrapSub64 3 5 :=
  threshold_subtraction_unguarded.2 3 5 (by decide) (by decide)

/-- C4 counterexample: with two dispatched tasks whose first completion is
a failure, the orchestrator's join loop decides rollback after consuming
only one of the two task results — it does not wait for every task to
resolve, and the unjoined sibling is dropped (hence aborted) rather than
run to completion. -/
theorem join_loop_reacts_to_first_failure_cex :
    (join_loop first_failure_first).1 = 1
    ∧ first_failure_first.length = 2
    ∧ (join_loop first_failure_first).2 = false := by decide

/-- C4 (amended): all Stable candidates are dispatched, but the join loop
consumes task results in completion order and reacts to the first failing
result: it falls through (commit path) exactly when every result is a
success, in which case it has consumed them all; on a first failure after
`n` successes it decides rollback having consumed only `n + 1` results,
leaving later-completing siblings unjoined (aborted by the `JoinSet`
drop). -/
theorem join_loop_amended (cs : List (Except SendError Unit)) :
    ((join_loop cs).2 = true ↔ ∀ r ∈ cs, r = Except.ok ())
    ∧ ((∀ r ∈ cs, r = Except.ok ()) → (join_loop cs).1 = cs.length)
    ∧ (∀ pre e post, cs = pre ++ e :: post → (∀ r ∈ pre, r = Except.ok ()) →
        e ≠ Except.ok () → (join_loop cs).1 = pre.length + 1) := by
  refine ⟨join_loop_ok_iff cs, join_loop_count_of_ok cs, ?_⟩
  intro pre e post hcs hpre he
  subst hcs
  exact join_loop_stops_at_first_error pre e post hpre he

theorem join_loop_amended_witness :
    (join_loop [Except.ok (), Except.error SendError.receiptFailed, Except.ok ()]).1 = 2 :=
  (join_loop_amended [Except.ok (), Except.error SendError.receiptFailed, Except.ok ()]).2.2
    [Except.ok ()] (Except.error SendError.receiptFailed) [Except.ok ()] rfl
    (by decide) (by decide)

/-- C5: the fetch returns every row with `block_number ≤ threshold`
(and only those), sorted by `(block_number, delegation_counter,
transaction_id)` ascending; in particular rows at block 100 (counter 1),
block 100 (counter 2) and block 101 (counter 1) are returned in exactly
that sequence at any threshold ≥ 101. -/
theorem delayed_sorted_delegation_ordered (table : List DelegationRow) (t : Nat) :
    (delayed_sorted_delegation table t).Perm
        (table.filter (fun d => decide (d.block_number ≤ t)))
    ∧ (∀ d, d ∈ delayed_sorted_delegation table t ↔ d ∈ table ∧ d.block_number ≤ t)
    ∧ List.Sorted rowLEP (delayed_sorted_delegation table t)
    ∧ (101 ≤ t →
        delayed_sorted_delegation [row101c1, row100c2, row100c1] t
          = [row100c1, row100c2, row101c1]) := by
  refine ⟨List.perm_insertionSort _ _, ?_, List.sorted_insertionSort _ _, ?_⟩
  · intro d
    rw [delayed_sorted_delegation, (List.perm_insertionSort rowLEP _).mem_iff,
      List.mem_filter, decide_eq_true_iff]
  · intro ht
    have b100 : decide ((100 : Nat) ≤ t) = true := decide_eq_true (by omega)
    have b101 : decide ((101 : Nat) ≤ t) = true := decide_eq_true ht
    unfold delayed_sorted_delegation
    have hfil : List.filter (fun d => decide (d.block_number ≤ t))
        [row101c1, row100c2, row100c1] = [row101c1, row100c2, row100c1] := by
      simp only [List.filter_cons, List.filter_nil, row101c1, row100c2, row100c1,
        b100, b101, if_true]
    rw [hfil]
    decide

theorem delayed_sorted_delegation_ordered_witness :
    delayed_sorted_delegation [row101c1, row100c2, row100c1] 101
      = [row100c1, row100c2, row101c1] :=
  (delayed_sorted_delegation_ordered [row101c1, row100c2, row100c1] 101).2.2.2
    (by decide)

/-- C8: in one pass the Block Oracle is queried exactly once per distinct
`block_number` among the fetched records (so at most once per height), and
two records anchored at the same height always receive the same
classification: one is submitted as Stable exactly when the other is. -/
theorem classification_once_per_height (oracle : Nat → Option (List Nat))
    (dels : List DelegationRow) :
    (checkLoop oracle [] dels).oracle_calls
        = ((dels.map (fun d => d.block_number)).dedup).length
    ∧ (∀ d1 ∈ dels, ∀ d2 ∈ dels, d1.block_number = d2.block_number →
        (d1 ∈ (check_delegations oracle dels).1 ↔ d2 ∈ (check_delegations oracle dels).1)) := by
  constructor
  · rw [checkLoop_calls]
    congr 1
    rw [List.filter_eq_self.mpr]
    intro b _
    simp [lookup_status]
  · intro d1 h1 d2 h2 hbn
    rw [check_delegations_eq, checkLoop_stable]
    simp only [List.mem_filter, decide_eq_true_iff]
    constructor
    · rintro ⟨-, hp⟩
      exact ⟨h2, by rwa [hbn] at hp⟩
    · rintro ⟨-, hp⟩
      exact ⟨h1, by rwa [← hbn] at hp⟩

theorem classification_once_per_height_witness :
    (checkLoop cexOracle [] [rowReorged, rowCanonical]).oracle_calls
        = (([rowReorged, rowCanonical].map (fun d => d.block_number)).dedup).length
    ∧ (rowReorged ∈ (check_delegations cexOracle [rowReorged, rowCanonical]).1
        ↔ rowCanonical ∈ (check_delegations cexOracle [rowReorged, rowCanonical]).1) :=
  ⟨(classification_once_per_height cexOracle [rowReorged, rowCanonical]).1,
    (classification_once_per_height cexOracle [rowReorged, rowCanonical]).2
      rowReorged (by decide) rowCanonical (by decide) (by decide)⟩

/-- Projection of `check_delegations` onto the stable candidates. -/
theorem check_delegations_fst (oracle : Nat → Option (List Nat))
    (dels : List DelegationRow) :
    (check_delegations oracle dels).1
      = dels.filter
          (fun d => decide (statusIn oracle [] dels d.block_number = some BlockStatus.Stable)) := by
  rw [check_delegations_eq]
  exact checkLoop_stable oracle dels []

/-- Projection of `check_delegations` onto the handled hashes. -/
theorem check_delegations_snd (oracle : Nat → Option (List Nat))
    (dels : List DelegationRow) :
    (check_delegations oracle dels).2
      = (dels.filter
          (fun d => decide (statusIn oracle [] dels d.block_number = some BlockStatus.Stable ∨
              statusIn oracle [] dels d.block_number = some BlockStatus.Dismissed))).map
          (fun d => d.block_hash) := by
  rw [check_delegations_eq]
  exact checkLoop_handled oracle dels []

/-- C2 counterexample: two fetched rows anchored at the same height with
different recorded hashes.  The live hash at height 5 equals
`rowCanonical`'s recorded hash, so the claim classifies it Stable and makes
it a submission candidate — but the memoized per-height status computed
from `rowReorged` (fetched first) is Dismissed, so the code excludes
`rowCanonical` from the candidates. -/
theorem tx_check_classification_cex :
    cexOracle rowCanonical.block_number = some rowCanonical.block_hash
    ∧ rowCanonical ∈ delayed_sorted_delegation [rowReorged, rowCanonical] 10
    ∧ rowCanonical ∉ (tx_check_ready_delegations cexOracle [rowReorged, rowCanonical] 10).1 := by
  decide

/-- C2 (amended): provided the fetched records' recorded hash is a function
of the height and conversely (records sharing a `block_number` share a
`block_hash`, and records sharing a `block_hash` share a `block_number`),
each fetched record is treated according to its own classification: live
hash equal → submission candidate and hash in the deletion set; live hash
different → excluded from submission, hash still in the deletion set;
lookup failure → excluded from submission and from the deletion set, so the
record remains in the store. -/
theorem tx_check_classification (oracle : Nat → Option (List Nat))
    (table : List DelegationRow) (last_ready_block : Nat)
    (H1 : ∀ d1 ∈ delayed_sorted_delegation table last_ready_block,
      ∀ d2 ∈ delayed_sorted_delegation table last_ready_block,
      d1.block_number = d2.block_number → d1.block_hash = d2.block_hash)
    (H2 : ∀ d1 ∈ delayed_sorted_delegation table last_ready_block,
      ∀ d2 ∈ delayed_sorted_delegation table last_ready_block,
      d1.block_hash = d2.block_hash → d1.block_number = d2.block_number)
    (d : DelegationRow) (hd : d ∈ delayed_sorted_delegation table last_ready_block) :
    ((∃ live, oracle d.block_number = some live ∧ d.block_hash = live) →
        d ∈ (tx_check_ready_delegations oracle table last_ready_block).1
        ∧ d.block_hash ∈ (tx_check_ready_delegations oracle table last_ready_block).2)
    ∧ ((∃ live, oracle d.block_number = some live ∧ d.block_hash ≠ live) →
        d ∉ (tx_check_ready_delegations oracle table last_ready_block).1
        ∧ d.block_hash ∈ (tx_check_ready_delegations oracle table last_ready_block).2)
    ∧ (oracle d.block_number = none →
        d ∉ (tx_check_ready_delegations oracle table last_ready_block).1
        ∧ d.block_hash ∉ (tx_check_ready_delegations oracle table last_ready_block).2) := by
  have hstat : ∀ e ∈ delayed_sorted_delegation table last_ready_block,
      statusIn oracle [] (delayed_sorted_delegation table last_ready_block) e.block_number
        = some (classify oracle e.block_number e.block_hash) :=
    fun e he => statusIn_nil_of_uniform oracle H1 he
  refine ⟨?_, ?_, ?_⟩
  · rintro ⟨live, hor, hh⟩
    have hcl : classify oracle d.block_number d.block_hash = BlockStatus.Stable := by
      simp [classify, hor, hh]
    constructor
    · rw [tx_check_ready_delegations, check_delegations_fst, List.mem_filter]
      exact ⟨hd, decide_eq_true (by rw [hstat d hd, hcl])⟩
    · rw [tx_check_ready_delegations, check_delegations_snd]
      refine List.mem_map_of_mem _ (List.mem_filter.mpr ⟨hd, decide_eq_true ?_⟩)
      rw [hstat d hd, hcl]
      exact Or.inl rfl
  · rintro ⟨live, hor, hh⟩
    have hcl : classify oracle d.block_number d.block_hash = BlockStatus.Dismissed := by
      simp [classify, hor, hh]
    constructor
    · rw [tx_check_ready_delegations, check_delegations_fst, List.mem_filter]
      rintro ⟨-, hp⟩
      rw [hstat d hd, hcl] at hp
      exact absurd (Option.some.inj (of_decide_eq_true hp)) (by simp)
    · rw [tx_check_ready_delegations, check_delegations_snd]
      refine List.mem_map_of_mem _ (List.mem_filter.mpr ⟨hd, decide_eq_true ?_⟩)
      rw [hstat d hd, hcl]
      exact Or.inr rfl
  · intro hnone
    have hcl : classify oracle d.block_number d.block_hash = BlockStatus.Unkown := by
      simp [classify, hnone]
    constructor
    · rw [tx_check_ready_delegations, check_delegations_fst, List.mem_filter]
      rintro ⟨-, hp⟩
      rw [hstat d hd, hcl] at hp
      exact absurd (Option.some.inj (of_decide_eq_true hp)) (by simp)
    · rw [tx_check_ready_delegations, check_delegations_snd]
      intro hmem
      obtain ⟨e, hef, hhash⟩ := List.mem_map.mp hmem
      obtain ⟨he, hp⟩ := List.mem_filter.mp hef
      have hebn : e.block_number = d.block_number := H2 e he d hd hhash
      have : statusIn oracle [] (delayed_sorted_delegation table last_ready_block)
          e.block_number = some (classify oracle e.block_number e.block_hash) := hstat e he
      have hecl : classify oracle e.block_number e.block_hash = BlockStatus.Unkown := by
        have : oracle e.block_number = none := by rw [hebn]; exact hnone
        simp [classify, this]
      rw [this, hecl] at hp
      rcases of_decide_eq_true hp with h | h
      · exact absurd (Option.some.inj h) (by simp)
      · exact absurd (Option.some.inj h) (by simp)

theorem tx_check_classification_witness :
    witRow ∈ (tx_check_ready_delegations wit_oracle wit_table 10).1
    ∧ witRow.block_hash ∈ (tx_check_ready_delegations wit_oracle wit_table 10).2 :=
  (tx_check_classification wit_oracle wit_table 10 (by decide) (by decide) witRow
    (by decide)).1 ⟨[7], rfl, rfl⟩

/-- C1: if any of the concurrently dispatched Stable candidates'
submissions resolves with a non-benign error (its task result is not
`Ok(Ok(()))`), the pass rolls the store transaction back before any
anchoring-hash deletion is applied: the pass propagates an error and the
table is left exactly as it was, whatever the other submissions did. -/
theorem execute_rolls_back_on_any_failure
    (table : List DelegationRow) (oracle : Nat → Option (List Nat))
    (notify : NotifyOutcome) (host_height : Option Nat) (delay : Nat)
    (completions : List (Except SendError Unit)) (cleanup_ok : Bool)
    (send_outcome : DelegationRow → SendOutcome) (h : Nat)
    (hwait : wait_last_block_number notify host_height = some h)
    (hperm : completions.Perm
      (((tx_check_ready_delegations oracle table (wrapSub64 h delay)).1).map
        (fun d => task_result (send_outcome d))))
    (hfail : ∃ d ∈ (tx_check_ready_delegations oracle table (wrapSub64 h delay)).1,
      task_result (send_outcome d) ≠ Except.ok ()) :
    execute table oracle notify host_height delay completions cleanup_ok
      = (Except.error PassError.sendFailed, table) := by
  obtain ⟨d, hd, hne⟩ := hfail
  have hmem : task_result (send_outcome d) ∈ completions :=
    hperm.mem_iff.mpr (List.mem_map_of_mem _ hd)
  have hjoin : (join_loop completions).2 = false := by
    cases hb : (join_loop completions).2
    · rfl
    · exact absurd ((join_loop_ok_iff completions).mp hb _ hmem) hne
  have hready : ((tx_check_ready_delegations oracle table (wrapSub64 h delay)).1).isEmpty
      = false :=
    List.isEmpty_eq_false.mpr (List.ne_nil_of_mem hd)
  simp only [execute, hwait, hready, hjoin, Bool.false_and, Bool.false_eq_true,
    if_false]

theorem execute_rolls_back_on_any_failure_witness :
    execute wit_table wit_oracle NotifyOutcome.timeout (some 6) 0
        [Except.error SendError.receiptFailed] true
      = (Except.error PassError.sendFailed, wit_table) :=
  execute_rolls_back_on_any_failure wit_table wit_oracle NotifyOutcome.timeout
    (some 6) 0 [Except.error SendError.receiptFailed] true
    (fun _ => SendOutcome.sent ReceiptOutcome.receiptErr) 6 rfl
    (by decide) ⟨witRow, by decide, by decide⟩

/-- C3: a submission whose send error decodes to
`CoprocessorAlreadyDelegatedOrRevokedUserDecryption` or
`UserDecryptionDelegationCounterTooLow` returns success without
propagating an error and without touching the failure counter; a pass all
of whose candidates are rejected this way commits with normal cleanup. -/
theorem benign_rejection_is_success :
    (∀ (e : RpcErrorModel) (m : Metrics),
      (e = RpcErrorModel.errorResp
          (some ACLContractError.CoprocessorAlreadyDelegatedOrRevokedUserDecryption) ∨
        e = RpcErrorModel.errorResp
          (some ACLContractError.UserDecryptionDelegationCounterTooLow)) →
      send_transaction (SendOutcome.sendErr e) m = (Except.ok (), m))
    ∧ (∀ (table : List DelegationRow) (oracle : Nat → Option (List Nat))
        (notify : NotifyOutcome) (host_height : Option Nat) (delay h : Nat)
        (contract_err : DelegationRow → RpcErrorModel)
        (completions : List (Except SendError Unit)),
        wait_last_block_number notify host_height = some h →
        (∀ d ∈ (tx_check_ready_delegations oracle table (wrapSub64 h delay)).1,
          (non_applicable_delegation (contract_err d)).isSome = true) →
        completions.Perm
          (((tx_check_ready_delegations oracle table (wrapSub64 h delay)).1).map
            (fun d => task_result (SendOutcome.sendErr (contract_err d)))) →
        execute table oracle notify host_height delay completions true
          = (Except.ok true,
            clean_delegation table
              (tx_check_ready_delegations oracle table (wrapSub64 h delay)).2)) := by
  constructor
  · rintro e m (rfl | rfl) <;> rfl
  · intro table oracle notify host_height delay h contract_err completions hwait
      hbenign hperm
    have hok : ∀ r ∈ completions, r = Except.ok () := by
      intro r hr
      obtain ⟨d, hd, rfl⟩ := List.mem_map.mp (hperm.mem_iff.mp hr)
      have hb := hbenign d hd
      simp [task_result, send_transaction, hb]
    have hjoin : (join_loop completions).2 = true :=
      (join_loop_ok_iff completions).mpr hok
    simp only [execute, hwait, hjoin, if_true]
    cases hempty : ((tx_check_ready_delegations oracle table (wrapSub64 h delay)).1).isEmpty
        && ((tx_check_ready_delegations oracle table (wrapSub64 h delay)).2).isEmpty
    · simp
    · have h2 : ((tx_check_ready_delegations oracle table (wrapSub64 h delay)).2).isEmpty
          = true := by
        rw [Bool.and_eq_true] at hempty
        exact hempty.2
      have : clean_delegation table
          (tx_check_ready_delegations oracle table (wrapSub64 h delay)).2 = table := by
        unfold clean_delegation
        rw [h2]
        simp
      simp [this]

theorem benign_rejection_is_success_witness :
    send_transaction (SendOutcome.sendErr (RpcErrorModel.errorResp
        (some ACLContractError.UserDecryptionDelegationCounterTooLow))) ⟨0, 0⟩
      = (Except.ok (), (⟨0, 0⟩ : Metrics))
    ∧ execute wit_table wit_oracle NotifyOutcome.timeout (some 6) 0
        [Except.ok ()] true
        = (Except.ok true,
          clean_delegation wit_table
            (tx_check_ready_delegations wit_oracle wit_table (wrapSub64 6 0)).2) :=
  ⟨benign_rejection_is_success.1 _ ⟨0, 0⟩ (Or.inr rfl),
    benign_rejection_is_success.2 wit_table wit_oracle NotifyOutcome.timeout (some 6) 0 6
      (fun _ => RpcErrorModel.errorResp
        (some ACLContractError.CoprocessorAlreadyDelegatedOrRevokedUserDecryption))
      [Except.ok ()] rfl (by decide) (by decide)⟩

/-- C6: when every dispatched submission resolves successfully but the
deletion of the handled anchoring hashes fails, the cleanup error is only
logged: the pass still commits, returns success, and the table is left
untouched (the undeleted rows wait for a later pass). -/
theorem cleanup_failure_does_not_roll_back
    (table : List DelegationRow) (oracle : Nat → Option (List Nat))
    (notify : NotifyOutcome) (host_height : Option Nat) (delay h : Nat)
    (completions : List (Except SendError Unit))
    (hwait : wait_last_block_number notify host_height = some h)
    (hok : ∀ r ∈ completions, r = Except.ok ()) :
    execute table oracle notify host_height delay completions false
      = (Except.ok true, table) := by
  have hjoin : (join_loop completions).2 = true :=
    (join_loop_ok_iff completions).mpr hok
  simp only [execute, hwait, hjoin, if_true, Bool.false_eq_true, if_false]
  split <;> rfl

theorem cleanup_failure_does_not_roll_back_witness :
    execute wit_table wit_oracle NotifyOutcome.timeout (some 6) 0
        [Except.ok ()] false
      = (Except.ok true, wit_table) :=
  cleanup_failure_does_not_roll_back wit_table wit_oracle NotifyOutcome.timeout
    (some 6) 0 6 [Except.ok ()] rfl (by decide)

end DelegateUserDecrypt
